import Mathlib

/-!
# dev-hub: the data-access layer `db` (src/db.js) over its Redis client

The module `db` issues one client call per `await` and keeps no state of its own,
so the embedding is explicit state passing over a `Store`:

* `Store` holds the three kinds of Redis value the module addresses (hashes, sets,
  sorted sets), each a total map from key to contents; a key that does not exist
  reads as the empty value, as in Redis.
* The object `redis` is the client of `@upstash/redis` that line 1 of src/db.js
  imports. Each method the source calls is a function on `Store` that does what
  that client does with the arguments the source passes. `hset`, `sadd`,
  `smembers`, `hgetall`, `hincrby` and `zremrangebyrank` send the Redis command of
  the same name. `zadd` takes `{score, member}` objects and throws `TypeError` on
  the number the source passes. `zrevrange` and `zrangebyscore` are not methods of
  the client, so calling them throws `TypeError`.
* Every `db` function that writes is the list of calls it awaits, in source order,
  plus the value it returns; a run is the execution of that list, and a run that
  throws after `k` calls is the execution of its first `k` calls.
* `Date.now()` and `new Date().toISOString()` are inputs of the functions that
  call them, one argument per call site.

Values that travel through the store are modelled as they are handed to the
client (`JSVal`); the client wire encoding of stored values is not modelled.
-/

namespace DevHub

/-! ## JavaScript values and objects -/

/-- JavaScript primitive values that appear in the records of this program. -/
inductive JSVal where
  | undefined
  | null
  | bool (b : Bool)
  | num (n : Int)
  | str (s : String)
  deriving DecidableEq, Repr

/-- A plain JavaScript object: its own string-keyed properties in insertion order. -/
abbrev Record := List (String × JSVal)

/-- Whether the object has an own property `k`. -/
def hasKey (r : Record) (k : String) : Bool :=
  r.any (fun kv => kv.1 == k)

/-- Property read `r.k`: the value written last under `k`, `undefined` when absent. -/
def getField : Record → String → JSVal
  | [], _ => JSVal.undefined
  | (k', v) :: rest, k =>
    if hasKey rest k then getField rest k
    else if k' = k then v else JSVal.undefined

/-- Property write: the object `{ ...r, [k]: v }`. An existing property keeps its
position and takes the new value, a new property is appended. -/
def setField (r : Record) (k : String) (v : JSVal) : Record :=
  if hasKey r k then r.map (fun kv => if kv.1 = k then (kv.1, v) else kv)
  else r ++ [(k, v)]

/-- Object spread `{ ...a, ...b }`: the properties of `b` written onto `a` in order. -/
def spread (a b : Record) : Record :=
  b.foldl (fun acc kv => setField acc kv.1 kv.2) a

/-! ## The Redis store -/

/-- The state of the Redis database as far as `db` touches it. -/
structure Store where
  /-- Hash values: key to field/value object (`[]` for a key that does not exist). -/
  hashes : String → Record
  /-- Set values: key to members, in the order `SMEMBERS` replies. -/
  sets : String → List String
  /-- Sorted-set values: key to `(score, member)` entries in ascending rank order. -/
  zsets : String → List (Int × String)

/-- The database with no keys. -/
def Store.empty : Store :=
  { hashes := fun _ => [], sets := fun _ => [], zsets := fun _ => [] }

/-- The store with the hash at `key` replaced by `r`. -/
def Store.writeHash (s : Store) (key : String) (r : Record) : Store :=
  { s with hashes := fun k => if k = key then r else s.hashes k }

/-- The store with the set at `key` replaced by `m`. -/
def Store.writeSet (s : Store) (key : String) (m : List String) : Store :=
  { s with sets := fun k => if k = key then m else s.sets k }

/-- The store with the sorted set at `key` replaced by `z`. -/
def Store.writeZset (s : Store) (key : String) (z : List (Int × String)) : Store :=
  { s with zsets := fun k => if k = key then z else s.zsets k }

/-! ## The client `redis` -/

/-- `redis.hgetall(key)`: `HGETALL key`. -/
def hgetall (s : Store) (key : String) : Record :=
  s.hashes key

/-- `redis.hset(key, fields)`: `HSET key field value [field value ...]` with the
fields of the object. Redis rejects the command when no field/value pair is given
(`none`: the call throws). -/
def hset (s : Store) (key : String) (fields : Record) : Option Store :=
  if fields = [] then none
  else some (s.writeHash key (spread (s.hashes key) fields))

/-- `redis.sadd(key, member)`: `SADD key member`. -/
def sadd (s : Store) (key member : String) : Store :=
  if member ∈ s.sets key then s
  else s.writeSet key (s.sets key ++ [member])

/-- `redis.smembers(key)`: `SMEMBERS key`. -/
def smembers (s : Store) (key : String) : List String :=
  s.sets key

/-- `redis.zadd(key, arg, ...rest)`. The client takes `arg` to be an object
(`{score, member}` or options) and tests it with the operator `in`, which throws
`TypeError` on every primitive value; `JSVal` holds primitives only, and the source
passes the number `Date.now()`. The call throws before a command is sent (`none`). -/
def zadd (_s : Store) (_key : String) (_arg : JSVal) (_rest : List JSVal) : Option Store :=
  none

/-- Index normalisation of the rank-range commands: negative indexes count from the
end, the start is clamped to `0` and the stop to the last rank; `none` when the
range is empty. -/
def rankRange (llen start stop : Int) : Option (Nat × Nat) :=
  let start := if start < 0 then llen + start else start
  let stop := if stop < 0 then llen + stop else stop
  let start := if start < 0 then 0 else start
  if start > stop ∨ start ≥ llen then none
  else
    let stop := if stop ≥ llen then llen - 1 else stop
    some (start.toNat, stop.toNat)

/-- Removal of the entries with rank in `[start, stop]` (inclusive). -/
def zremrangeEntries (z : List (Int × String)) (start stop : Int) : List (Int × String) :=
  match rankRange z.length start stop with
  | none => z
  | some (a, b) => z.take a ++ z.drop (b + 1)

/-- `redis.zremrangebyrank(key, start, stop)`: `ZREMRANGEBYRANK key start stop`. -/
def zremrangebyrank (s : Store) (key : String) (start stop : Int) : Store :=
  s.writeZset key (zremrangeEntries (s.zsets key) start stop)

/-- `redis.zrevrange(key, start, stop)`. The client has no method of this name: the
expression `redis.zrevrange` is `undefined` and calling it throws `TypeError`
(`none`), whatever the store and the arguments. -/
def zrevrange (_s : Store) (_key : String) (_start _stop : Int) : Option (List String) :=
  none

/-- `redis.zrangebyscore(key, min, max)`. The client has no method of this name: the
call throws `TypeError` (`none`), whatever the store and the arguments. -/
def zrangebyscore (_s : Store) (_key : String) (_min : Int) (_max : String) :
    Option (List String) :=
  none

/-- The text under which the client sends a command argument. A string is sent as
it is and an integer as its decimal text (below `10 ^ 21` in magnitude, where
JavaScript prints no exponent); what the server receives for any other value is the
argument `other` (`none`: the request is rejected and the call throws). -/
def argText (other : JSVal → Option String) : JSVal → Option String
  | JSVal.str s => some s
  | JSVal.num n => if n.natAbs < 10 ^ 21 then some (toString n) else other (JSVal.num n)
  | v => other v

/-- The integer a hash field holds, as `HINCRBY` reads it: `0` for a missing field,
`none` for a field that does not hold an integer. -/
def hashInt (r : Record) (f : String) : Option Int :=
  if hasKey r f then
    match getField r f with
    | JSVal.num n => some n
    | _ => none
  else some 0

/-- `redis.hincrby(key, field, incr)`: `HINCRBY key field incr`, where `field` is the
field name as the server receives it (`none` when the request is rejected). A
missing field counts as `0`; Redis rejects the command (`none`) when the field holds
something that is not a signed 64-bit integer or when the result leaves that range. -/
def hincrby (s : Store) (key : String) (field : Option String) (incr : Int) : Option Store :=
  match field with
  | some f =>
    match hashInt (s.hashes key) f with
    | none => none
    | some n =>
      if -(2 : Int) ^ 63 ≤ n ∧ n < (2 : Int) ^ 63 ∧ -(2 : Int) ^ 63 ≤ n + incr ∧ n + incr < (2 : Int) ^ 63 then
        some (s.writeHash key (setField (s.hashes key) f (JSVal.num (n + incr))))
      else none
  | none => none

/-! ## Calls and runs -/

/-- One awaited write call of `db`, with its arguments as the source passes them. -/
inductive Cmd where
  | hset (key : String) (fields : Record)
  | sadd (key member : String)
  | zadd (key : String) (arg : JSVal) (rest : List JSVal)
  | zremrangebyrank (key : String) (start stop : Int)
  | hincrby (key : String) (field : Option String) (incr : Int)

/-- Effect of one call; `none` when the call throws. -/
def Cmd.exec : Cmd → Store → Option Store
  | Cmd.hset key fields, s => DevHub.hset s key fields
  | Cmd.sadd key member, s => some (DevHub.sadd s key member)
  | Cmd.zadd key arg rest, s => DevHub.zadd s key arg rest
  | Cmd.zremrangebyrank key start stop, s => some (DevHub.zremrangebyrank s key start stop)
  | Cmd.hincrby key field incr, s => DevHub.hincrby s key field incr

/-- Sequential execution of awaited calls: the first call that throws aborts. -/
def runCmds : List Cmd → Store → Option Store
  | [], s => some s
  | c :: cs, s =>
    match c.exec s with
    | none => none
    | some s' => runCmds cs s'

/-- The store a sequence of awaited calls leaves behind: the calls take effect in
order up to the first one that throws. -/
def runLeaves : List Cmd → Store → Store
  | [], s => s
  | c :: cs, s =>
    match c.exec s with
    | none => s
    | some s' => runLeaves cs s'

/-! ## JavaScript numbers, as far as `getUptimeStats` computes with them -/

/-- A JavaScript number. Finite values are kept exact (rounding to binary64 and the
sign of zero are not modelled); `NaN` and the infinities are as in IEEE 754. -/
inductive JSNum where
  | nan
  | posInf
  | negInf
  | fin (q : ℚ)
  deriving DecidableEq

/-- The operator `+` on numbers. -/
def JSNum.add : JSNum → JSNum → JSNum
  | JSNum.nan, _ => JSNum.nan
  | _, JSNum.nan => JSNum.nan
  | JSNum.posInf, JSNum.negInf => JSNum.nan
  | JSNum.negInf, JSNum.posInf => JSNum.nan
  | JSNum.posInf, _ => JSNum.posInf
  | JSNum.negInf, _ => JSNum.negInf
  | JSNum.fin _, JSNum.posInf => JSNum.posInf
  | JSNum.fin _, JSNum.negInf => JSNum.negInf
  | JSNum.fin a, JSNum.fin b => JSNum.fin (a + b)

/-- The operator `/` on numbers: `0 / 0` is `NaN`, a non-zero value over `0` is an
infinity, a finite value over an infinity is `0`. -/
def JSNum.div : JSNum → JSNum → JSNum
  | JSNum.nan, _ => JSNum.nan
  | _, JSNum.nan => JSNum.nan
  | JSNum.fin a, JSNum.fin b =>
    if b = 0 then (if a = 0 then JSNum.nan else if 0 < a then JSNum.posInf else JSNum.negInf)
    else JSNum.fin (a / b)
  | JSNum.fin _, _ => JSNum.fin 0
  | JSNum.posInf, JSNum.fin b => if 0 ≤ b then JSNum.posInf else JSNum.negInf
  | JSNum.negInf, JSNum.fin b => if 0 ≤ b then JSNum.negInf else JSNum.posInf
  | _, _ => JSNum.nan

/-- JavaScript truthiness. -/
def truthy : JSVal → Bool
  | JSVal.undefined => false
  | JSVal.null => false
  | JSVal.bool b => b
  | JSVal.num n => decide (n ≠ 0)
  | JSVal.str s => decide (s ≠ "")

/-- The operator `a || b`. -/
def jsOr (a b : JSVal) : JSVal :=
  if truthy a then a else b

/-- The builtin `parseFloat`: an integer parses to itself, `undefined`, `null` and
booleans to `NaN`; the parse of a string is the argument `parseStr`. -/
def parseFloat (parseStr : String → JSNum) : JSVal → JSNum
  | JSVal.num n => JSNum.fin n
  | JSVal.str s => parseStr s
  | _ => JSNum.nan

/-! ## The module `db` (src/db.js) -/

/-- A writing function of `db`: the calls it awaits, in source order, and the value
it returns when none of them throws. -/
structure Op where
  /-- The awaited calls. -/
  cmds : List Cmd
  /-- The returned identifier. -/
  ret : String

/-- A run in which no injected failure occurs: the final store and the returned
value, `none` when a call throws. -/
def Op.run (op : Op) (s : Store) : Option (Store × String) :=
  (runCmds op.cmds s).map (fun s' => (s', op.ret))

/-- The store a run leaves when it stops after its first `k` calls (the next call
throws); `none` when one of those `k` calls itself throws, in which case the run
stopped earlier. -/
def Op.runPrefix (op : Op) (k : Nat) (s : Store) : Option Store :=
  runCmds (op.cmds.take k) s

/-- The store a run leaves behind, whether it returns or throws. -/
def Op.leaves (op : Op) (s : Store) : Store :=
  runLeaves op.cmds s

/-- `db.createUser(userData)`; `now` is the value of `Date.now()`. -/
def createUser (now : Nat) (userData : Record) : Op :=
  let userId := "user:" ++ toString now
  { cmds := [Cmd.hset ("users:" ++ userId) userData, Cmd.sadd "users:index" userId]
    ret := userId }

/-- `db.getUser(userId)`. -/
def getUser (s : Store) (userId : String) : Record :=
  hgetall s ("users:" ++ userId)

/-- `db.getUserByEmail(email)`, the loop over the members the index returned. -/
def getUserByEmailLoop (s : Store) (email : JSVal) : List String → Option Record
  | [] => none
  | userId :: rest =>
    let user := hgetall s ("users:" ++ userId)
    if getField user "email" = email then some (setField user "id" (JSVal.str userId))
    else getUserByEmailLoop s email rest

/-- `db.getUserByEmail(email)`; `none` is the returned `null`. -/
def getUserByEmail (s : Store) (email : JSVal) : Option Record :=
  getUserByEmailLoop s email (smembers s "users:index")

/-- The expression `iso.split('T')[0]`: the text before the first `T`. -/
def isoDate (iso : String) : String :=
  String.mk (iso.data.takeWhile (fun c => c != 'T'))

/-- `db.trackEvent(event)`; `now` is `Date.now()`, `iso1` and `iso2` the two
`new Date().toISOString()` values, `other` the field name the server receives for
an `event.type` that is neither a string nor an integer (see `argText`). -/
def trackEvent (other : JSVal → Option String) (now : Nat) (iso1 iso2 : String)
    (event : Record) : Op :=
  let eventId := "event:" ++ toString now
  let today := isoDate iso2
  { cmds := [Cmd.hset ("events:" ++ eventId) (setField event "timestamp" (JSVal.str iso1)),
             Cmd.hincrby ("stats:daily:" ++ today) (argText other (getField event "type")) 1]
    ret := eventId }

/-- `db.getDailyStats(date)`. -/
def getDailyStats (s : Store) (date : String) : Record :=
  hgetall s ("stats:daily:" ++ date)

/-- The event the analytics handler passes to `db.trackEvent` (src/analytics.js):
the request body with `userAgent`, `ipAddress`, `timestamp` and `type` set, the type
defaulting to `pageview`. -/
def enrichedEvent (event : Record) (userAgent forwardedFor remoteAddress : JSVal)
    (iso : String) : Record :=
  setField
    (setField
      (setField
        (setField event "userAgent" (jsOr userAgent (JSVal.str "")))
        "ipAddress" (jsOr (jsOr forwardedFor remoteAddress) (JSVal.str "")))
      "timestamp" (JSVal.str iso))
    "type" (jsOr (getField event "type") (JSVal.str "pageview"))

/-- `db.createPage(pageData)`; `now1` names the page, `iso1` and `iso2` are the two
timestamps of the record, `now2` is the number passed to `redis.zadd`. -/
def createPage (now1 : Nat) (iso1 iso2 : String) (now2 : Nat) (pageData : Record) : Op :=
  let pageId := "page:" ++ toString now1
  { cmds := [Cmd.hset ("pages:" ++ pageId)
               (setField (setField pageData "createdAt" (JSVal.str iso1)) "updatedAt" (JSVal.str iso2)),
             Cmd.zadd "pages:index" (JSVal.num now2) [JSVal.str pageId]]
    ret := pageId }

/-- `db.getPage(pageId)`. -/
def getPage (s : Store) (pageId : String) : Record :=
  hgetall s ("pages:" ++ pageId)

/-- The index read of `db.listPages(limit)`: `redis.zrevrange('pages:index', 0, limit - 1)`;
`none` when the call throws. -/
def listPagesIds (s : Store) (limit : Int) : Option (List String) :=
  zrevrange s "pages:index" 0 (limit - 1)

/-- What `db.listPages` does with the identifiers the index read returned: it fetches
the record of each and attaches the identifier as `id`. -/
def listPagesFrom (s : Store) (pageIds : List String) : List Record :=
  let pages := pageIds.map (fun id => hgetall s ("pages:" ++ id))
  pages.mapIdx (fun index page =>
    setField page "id" (match pageIds[index]? with
      | some id => JSVal.str id
      | none => JSVal.undefined))

/-- `db.listPages(limit)`; `none` when the function throws. -/
def listPages (s : Store) (limit : Int) : Option (List Record) :=
  match listPagesIds s limit with
  | none => none
  | some pageIds => some (listPagesFrom s pageIds)

/-- `db.recordUptimeCheck(checkData)`; `now1` names the check, `now2` is the number
passed to `redis.zadd`. -/
def recordUptimeCheck (now1 now2 : Nat) (checkData : Record) : Op :=
  let checkId := "check:" ++ toString now1
  { cmds := [Cmd.hset ("uptime:" ++ checkId) checkData,
             Cmd.zadd "uptime:index" (JSVal.num now2) [JSVal.str checkId],
             Cmd.zremrangebyrank "uptime:index" 0 (-1001)]
    ret := checkId }

/-- The object `db.getUptimeStats` returns. -/
structure UptimeStats where
  /-- Field `totalChecks`. -/
  totalChecks : Nat
  /-- Field `successful`. -/
  successful : Nat
  /-- Field `failed`. -/
  failed : Nat
  /-- Field `avgResponseTime`. -/
  avgResponseTime : JSNum
  /-- Field `checks`. -/
  checks : List Record

/-- The cutoff `Date.now() - hours * 60 * 60 * 1000`. -/
def uptimeCutoff (now : Nat) (hours : Int) : Int :=
  (now : Int) - hours * 60 * 60 * 1000

/-- The index read of `db.getUptimeStats(hours)`:
`redis.zrangebyscore('uptime:index', cutoff, '+inf')`; `none` when the call throws. -/
def uptimeCheckIds (s : Store) (now : Nat) (hours : Int) : Option (List String) :=
  zrangebyscore s "uptime:index" (uptimeCutoff now hours) "+inf"

/-- What `db.getUptimeStats` does with the identifiers the index read returned
(lines 95 to 105 of src/db.js). -/
def uptimeStatsFrom (parseStr : String → JSNum) (s : Store) (checkIds : List String) :
    UptimeStats :=
  let checks := checkIds.map (fun id => hgetall s ("uptime:" ++ id))
  { totalChecks := checks.length
    successful := (checks.filter (fun c => decide (getField c "status" = JSVal.str "up"))).length
    failed := (checks.filter (fun c => decide (getField c "status" = JSVal.str "down"))).length
    avgResponseTime :=
      JSNum.div
        (checks.foldl
          (fun sum c => JSNum.add sum (parseFloat parseStr (jsOr (getField c "responseTime") (JSVal.num 0))))
          (JSNum.fin 0))
        (JSNum.fin checks.length)
    checks := checks.drop (checks.length - 100) }

/-- `db.getUptimeStats(hours)`; `now` is `Date.now()`, `none` when the function throws. -/
def getUptimeStats (parseStr : String → JSNum) (s : Store) (now : Nat) (hours : Int) :
    Option UptimeStats :=
  match uptimeCheckIds s now hours with
  | none => none
  | some checkIds => some (uptimeStatsFrom parseStr s checkIds)

/-! ## Definitions used to state the properties -/

/-- The store of the example: `users:index` holds `a` and `b`, the record of `a` has
email `x`, the record of `b` has email `y`. -/
def usersExample : Store :=
  sadd (sadd ((Store.empty.writeHash "users:a" [("email", JSVal.str "x")]).writeHash "users:b"
    [("email", JSVal.str "y")]) "users:index" "a") "users:index" "b"

/-- The count a daily bucket holds for a category, read through `getDailyStats`:
`0` when the bucket has no such field. -/
def dailyCount (s : Store) (day category : String) : Int :=
  match getField (getDailyStats s day) category with
  | JSVal.num n => n
  | _ => 0

/-- A store in which the `pageview` field of one daily bucket does not hold an
integer. -/
def brokenCounterStore : Store :=
  Store.empty.writeHash "stats:daily:2024-01-02" [("pageview", JSVal.str "abc")]

/-- A call of one of the writing functions of `db`, with the clock values it reads. -/
inductive DbCall where
  | createUser (now : Nat) (userData : Record)
  | createPage (now1 : Nat) (iso1 iso2 : String) (now2 : Nat) (pageData : Record)
  | recordUptimeCheck (now1 now2 : Nat) (checkData : Record)
  | trackEvent (other : JSVal → Option String) (now : Nat) (iso1 iso2 : String) (event : Record)

/-- The operation a call performs. -/
def DbCall.op : DbCall → Op
  | DbCall.createUser now userData => DevHub.createUser now userData
  | DbCall.createPage now1 iso1 iso2 now2 pageData => DevHub.createPage now1 iso1 iso2 now2 pageData
  | DbCall.recordUptimeCheck now1 now2 checkData => DevHub.recordUptimeCheck now1 now2 checkData
  | DbCall.trackEvent other now iso1 iso2 event => DevHub.trackEvent other now iso1 iso2 event

/-- Every identifier in `users:index`, `pages:index` and `uptime:index` has a stored record. -/
def IndexedHaveRecords (s : Store) : Prop :=
  (∀ id ∈ s.sets "users:index", hgetall s ("users:" ++ id) ≠ [])
    ∧ (∀ e ∈ s.zsets "pages:index", hgetall s ("pages:" ++ e.2) ≠ [])
    ∧ (∀ e ∈ s.zsets "uptime:index", hgetall s ("uptime:" ++ e.2) ≠ [])

/-- Successive `recordUptimeCheck` calls, one per element `(now1, now2, checkData)`:
the store they leave behind, each call starting from what the previous one left,
whether it returned or threw. -/
def recordUptimeChecks : List (Nat × Nat × Record) → Store → Store
  | [], s => s
  | c :: rest, s => recordUptimeChecks rest ((recordUptimeCheck c.1 c.2.1 c.2.2).leaves s)

/-- A thousand uptime checks, the `i`-th recorded at millisecond `i`. -/
def thousandChecks : List (Nat × Nat × Record) :=
  (List.range 1000).map (fun i => (i, i, [("status", JSVal.str "up")]))

/-! ## Objects: reading after writing -/

theorem hasKey_nil (k : String) : hasKey [] k = false := rfl

theorem hasKey_cons (k' : String) (v : JSVal) (r : Record) (k : String) :
    hasKey ((k', v) :: r) k = (decide (k' = k) || hasKey r k) := by
  by_cases h : k' = k <;> simp [hasKey, h]

theorem hasKey_append (a b : Record) (k : String) :
    hasKey (a ++ b) k = (hasKey a k || hasKey b k) := by
  simp [hasKey]

theorem getField_cons (k' : String) (v : JSVal) (r : Record) (k : String) :
    getField ((k', v) :: r) k
      = if hasKey r k = true then getField r k else if k' = k then v else JSVal.undefined := rfl

theorem map_upd_cons (k : String) (v : JSVal) (a : String) (b : JSVal) (rest : Record) :
    ((a, b) :: rest).map (fun kv => if kv.1 = k then (kv.1, v) else kv)
      = (if a = k then (a, v) else (a, b)) :: rest.map (fun kv => if kv.1 = k then (kv.1, v) else kv) := rfl

theorem hasKey_map_snd (r : Record) (k k' : String) (v : JSVal) :
    hasKey (r.map (fun kv => if kv.1 = k then (kv.1, v) else kv)) k' = hasKey r k' := by
  induction r with
  | nil => rfl
  | cons kv rest ih =>
    obtain ⟨a, b⟩ := kv
    rw [map_upd_cons]
    by_cases h : a = k
    · rw [if_pos h, hasKey_cons, hasKey_cons, ih]
    · rw [if_neg h, hasKey_cons, hasKey_cons, ih]

theorem getField_append_single (r : Record) (k k' : String) (v : JSVal) :
    getField (r ++ [(k, v)]) k' = if k = k' then v else getField r k' := by
  induction r with
  | nil =>
    rw [List.nil_append, getField_cons, hasKey_nil]
    simp [getField]
  | cons kv rest ih =>
    obtain ⟨a, b⟩ := kv
    rw [List.cons_append, getField_cons, getField_cons, hasKey_append, hasKey_cons, hasKey_nil, ih]
    by_cases h : k = k'
    · simp [h]
    · simp [h]

theorem getField_of_not_hasKey (r : Record) (k : String) (h : hasKey r k = false) :
    getField r k = JSVal.undefined := by
  induction r with
  | nil => rfl
  | cons kv rest ih =>
    obtain ⟨a, b⟩ := kv
    rw [hasKey_cons] at h
    simp only [Bool.or_eq_false_iff, decide_eq_false_iff_not] at h
    rw [getField_cons]
    simp [h.1, h.2]

theorem getField_map_snd (r : Record) (k k' : String) (v : JSVal) :
    getField (r.map (fun kv => if kv.1 = k then (kv.1, v) else kv)) k'
      = if k = k' ∧ hasKey r k' = true then v else getField r k' := by
  induction r with
  | nil => simp [getField, hasKey_nil]
  | cons kv rest ih =>
    obtain ⟨a, b⟩ := kv
    rw [map_upd_cons]
    by_cases ha : a = k
    · rw [if_pos ha, getField_cons, getField_cons, hasKey_map_snd, ih, hasKey_cons]
      by_cases hr : hasKey rest k' = true
      · simp [hr]
      · by_cases hk : k = k'
        · simp [hr, hk, ha]
        · have : ¬ a = k' := fun e => hk (ha.symm.trans e)
          simp [hr, hk, this]
    · rw [if_neg ha, getField_cons, getField_cons, hasKey_map_snd, ih, hasKey_cons]
      by_cases hr : hasKey rest k' = true
      · simp [hr]
      · by_cases hk : k = k'
        · have : ¬ a = k' := fun e => ha (e.trans hk.symm)
          simp [hr, hk, this]
        · simp [hr, hk]

/-- Reading a property of `{ ...r, [k]: v }`. -/
theorem getField_setField (r : Record) (k k' : String) (v : JSVal) :
    getField (setField r k v) k' = if k = k' then v else getField r k' := by
  unfold setField
  by_cases h : hasKey r k = true
  · rw [if_pos h, getField_map_snd]
    by_cases hk : k = k'
    · subst hk; simp [h]
    · simp [hk]
  · rw [if_neg h, getField_append_single]

theorem hasKey_setField (r : Record) (k k' : String) (v : JSVal) :
    hasKey (setField r k v) k' = (decide (k = k') || hasKey r k') := by
  unfold setField
  by_cases h : hasKey r k = true
  · rw [if_pos h, hasKey_map_snd]
    by_cases hk : k = k'
    · subst hk; simp [h]
    · simp [hk]
  · rw [if_neg h, hasKey_append, hasKey_cons, hasKey_nil]
    by_cases hk : k = k' <;> simp [hk, Bool.or_comm]

theorem setField_ne_nil (r : Record) (k : String) (v : JSVal) : setField r k v ≠ [] := by
  unfold setField
  by_cases h : hasKey r k = true
  · rw [if_pos h]
    cases r with
    | nil => simp [hasKey_nil] at h
    | cons a t => simp
  · rw [if_neg h]; simp

theorem spread_nil (a : Record) : spread a [] = a := rfl

theorem spread_cons (a : Record) (kv : String × JSVal) (b : Record) :
    spread a (kv :: b) = spread (setField a kv.1 kv.2) b := rfl

/-- Reading a property of `{ ...a, ...b }`: the value in `b` when `b` has the
property, the value in `a` otherwise. -/
theorem getField_spread (a b : Record) (k : String) :
    getField (spread a b) k = if hasKey b k = true then getField b k else getField a k := by
  induction b generalizing a with
  | nil => simp [spread_nil, hasKey_nil]
  | cons kv rest ih =>
    obtain ⟨x, y⟩ := kv
    rw [spread_cons, ih, hasKey_cons]
    by_cases hr : hasKey rest k = true
    · simp [hr, getField]
    · simp only [Bool.not_eq_true] at hr
      by_cases hx : x = k
      · simp [hr, hx, getField, getField_setField]
      · simp [hr, hx, getField, getField_setField]

theorem hasKey_spread (a b : Record) (k : String) :
    hasKey (spread a b) k = (hasKey a k || hasKey b k) := by
  induction b generalizing a with
  | nil => simp [spread_nil, hasKey_nil]
  | cons kv rest ih =>
    obtain ⟨x, y⟩ := kv
    rw [spread_cons, ih, hasKey_cons, hasKey_setField]
    cases hasKey a k <;> cases hasKey rest k <;> simp

theorem spread_ne_nil_of_left (a b : Record) (h : a ≠ []) : spread a b ≠ [] := by
  induction b generalizing a with
  | nil => simpa [spread_nil] using h
  | cons kv rest ih => rw [spread_cons]; exact ih _ (setField_ne_nil _ _ _)

theorem spread_ne_nil_of_right (a b : Record) (h : b ≠ []) : spread a b ≠ [] := by
  cases b with
  | nil => exact absurd rfl h
  | cons kv rest => rw [spread_cons]; exact spread_ne_nil_of_left _ _ (setField_ne_nil _ _ _)

/-! ## Keys -/

theorem str_append_left_cancel (p a b : String) (h : p ++ a = p ++ b) : a = b := by
  have h1 := congrArg String.data h
  rw [String.data_append, String.data_append] at h1
  exact String.ext (List.append_cancel_left h1)

theorem str_append_ne_of_head_ne (p q x y : String) (c d : Char) (tp tq : List Char)
    (hp : p.data = c :: tp) (hq : q.data = d :: tq) (hcd : c ≠ d) : p ++ x ≠ q ++ y := by
  intro h
  have h1 := congrArg String.data h
  rw [String.data_append, String.data_append, hp, hq] at h1
  exact hcd (List.cons.inj h1).1

theorem events_key_ne_stats_key (x y : String) : "events:" ++ x ≠ "stats:daily:" ++ y :=
  str_append_ne_of_head_ne "events:" "stats:daily:" x y 'e' 's' _ _ rfl rfl (by decide)

/-! ## Commands: what each one changes -/

theorem writeHash_hashes (s : Store) (key : String) (r : Record) (k : String) :
    (s.writeHash key r).hashes k = if k = key then r else s.hashes k := rfl

theorem writeHash_sets (s : Store) (key : String) (r : Record) :
    (s.writeHash key r).sets = s.sets := rfl

theorem writeHash_zsets (s : Store) (key : String) (r : Record) :
    (s.writeHash key r).zsets = s.zsets := rfl

theorem writeSet_sets (s : Store) (key : String) (m : List String) (k : String) :
    (s.writeSet key m).sets k = if k = key then m else s.sets k := rfl

theorem writeSet_hashes (s : Store) (key : String) (m : List String) :
    (s.writeSet key m).hashes = s.hashes := rfl

theorem writeSet_zsets (s : Store) (key : String) (m : List String) :
    (s.writeSet key m).zsets = s.zsets := rfl

theorem writeZset_zsets (s : Store) (key : String) (z : List (Int × String)) (k : String) :
    (s.writeZset key z).zsets k = if k = key then z else s.zsets k := rfl

theorem writeZset_hashes (s : Store) (key : String) (z : List (Int × String)) :
    (s.writeZset key z).hashes = s.hashes := rfl

theorem writeZset_sets (s : Store) (key : String) (z : List (Int × String)) :
    (s.writeZset key z).sets = s.sets := rfl

theorem hset_eq_some (s : Store) (key : String) (fields : Record) (h : fields ≠ []) :
    hset s key fields = some (s.writeHash key (spread (s.hashes key) fields)) := by
  unfold hset
  rw [if_neg h]

theorem hset_eq_none (s : Store) (key : String) : hset s key [] = none := by
  unfold hset
  rw [if_pos rfl]

theorem hset_some_ne_nil {s s' : Store} {key : String} {fields : Record}
    (h : hset s key fields = some s') : fields ≠ [] := by
  intro e
  rw [e, hset_eq_none] at h
  exact Option.noConfusion h

theorem hset_some_eq {s s' : Store} {key : String} {fields : Record}
    (h : hset s key fields = some s') :
    s' = s.writeHash key (spread (s.hashes key) fields) := by
  rw [hset_eq_some s key fields (hset_some_ne_nil h)] at h
  exact (Option.some.inj h).symm

theorem sadd_of_mem (s : Store) (key member : String) (h : member ∈ s.sets key) :
    sadd s key member = s := by
  unfold sadd
  rw [if_pos h]

theorem sadd_of_not_mem (s : Store) (key member : String) (h : member ∉ s.sets key) :
    sadd s key member = s.writeSet key (s.sets key ++ [member]) := by
  unfold sadd
  rw [if_neg h]

theorem sets_sadd_self (s : Store) (key member : String) :
    (sadd s key member).sets key
      = if member ∈ s.sets key then s.sets key else s.sets key ++ [member] := by
  by_cases h : member ∈ s.sets key
  · rw [if_pos h, sadd_of_mem s key member h]
  · rw [if_neg h, sadd_of_not_mem s key member h, writeSet_sets, if_pos rfl]

theorem mem_sets_sadd_self (s : Store) (key member : String) :
    member ∈ (sadd s key member).sets key := by
  rw [sets_sadd_self]
  by_cases h : member ∈ s.sets key
  · rw [if_pos h]; exact h
  · rw [if_neg h]; simp

theorem sadd_sadd (s : Store) (key member : String) :
    sadd (sadd s key member) key member = sadd s key member :=
  sadd_of_mem _ _ _ (mem_sets_sadd_self s key member)

theorem sadd_hashes (s : Store) (key member : String) : (sadd s key member).hashes = s.hashes := by
  by_cases h : member ∈ s.sets key
  · rw [sadd_of_mem s key member h]
  · rw [sadd_of_not_mem s key member h, writeSet_hashes]

theorem run_createUser (s : Store) (now : Nat) (userData : Record) (h : userData ≠ []) :
    (createUser now userData).run s
      = some (sadd (s.writeHash ("users:" ++ ("user:" ++ toString now))
                (spread (s.hashes ("users:" ++ ("user:" ++ toString now))) userData))
              "users:index" ("user:" ++ toString now),
              "user:" ++ toString now) := by
  simp [Op.run, createUser, runCmds, Cmd.exec, hset_eq_some _ _ _ h]

theorem run_createUser_some {s s' : Store} {now : Nat} {userData : Record} {id : String}
    (h : (createUser now userData).run s = some (s', id)) : userData ≠ [] := by
  intro e
  subst e
  simp [Op.run, createUser, runCmds, Cmd.exec, hset_eq_none] at h

/-! ## `createUser`: identifier collisions -/

/-- C10: two `createUser` calls that generate the same identifier (same `Date.now()`)
return that identifier both times, and the second call leaves `users:index` with
exactly the members the first call left: adding the identifier twice is the same as
adding it once. -/
theorem createUser_index_idempotent (s s1 s2 : Store) (now : Nat) (f1 f2 : Record)
    (id1 id2 : String)
    (h1 : (createUser now f1).run s = some (s1, id1))
    (h2 : (createUser now f2).run s1 = some (s2, id2)) :
    id1 = id2 ∧ id1 ∈ smembers s1 "users:index"
      ∧ smembers s1 "users:index" = smembers (sadd s "users:index" id1) "users:index"
      ∧ smembers s2 "users:index" = smembers s1 "users:index" := by
  rw [run_createUser s now f1 (run_createUser_some h1)] at h1
  rw [run_createUser s1 now f2 (run_createUser_some h2)] at h2
  obtain ⟨hs1, hid1⟩ := Prod.mk.inj (Option.some.inj h1)
  obtain ⟨hs2, hid2⟩ := Prod.mk.inj (Option.some.inj h2)
  have hmem : id1 ∈ smembers s1 "users:index" := by
    rw [← hs1, ← hid1]
    exact mem_sets_sadd_self _ _ _
  refine ⟨hid1.symm.trans hid2, hmem, ?_, ?_⟩
  · rw [← hs1, ← hid1]
    unfold smembers
    rw [sets_sadd_self, sets_sadd_self, writeHash_sets]
  · rw [← hs2]
    unfold smembers
    rw [sets_sadd_self, writeHash_sets, if_pos (hid1 ▸ hmem)]

/-- Witness of C10: the same millisecond `5`, from the empty store. -/
theorem createUser_index_idempotent_witness :
    smembers (sadd ((sadd (Store.empty.writeHash "users:user:5" [("email", JSVal.str "x")])
        "users:index" "user:5").writeHash "users:user:5" [("email", JSVal.str "y")])
        "users:index" "user:5") "users:index" = ["user:5"] :=
  ((createUser_index_idempotent Store.empty
      (sadd (Store.empty.writeHash "users:user:5" [("email", JSVal.str "x")]) "users:index" "user:5")
      (sadd ((sadd (Store.empty.writeHash "users:user:5" [("email", JSVal.str "x")])
        "users:index" "user:5").writeHash "users:user:5" [("email", JSVal.str "y")])
        "users:index" "user:5")
      5 [("email", JSVal.str "x")] [("email", JSVal.str "y")] "user:5" "user:5" rfl rfl).2.2.2).trans
    (by decide)

/-- C8 as the code has it: two `createUser` calls in the same millisecond with
non-empty field mappings both succeed and return the same identifier, and the record
stored under it afterwards is `f2` laid over `f1` laid over what was stored before:
a field has the value of `f2` when `f2` has it, else that of `f1` when `f1` has it,
else the value stored before the two calls. -/
theorem createUser_collision_overlays (s : Store) (now : Nat) (f1 f2 : Record)
    (h1 : f1 ≠ []) (h2 : f2 ≠ []) :
    ∃ s1 s2 id, (createUser now f1).run s = some (s1, id)
      ∧ (createUser now f2).run s1 = some (s2, id)
      ∧ ∀ k, getField (hgetall s2 ("users:" ++ id)) k
          = if hasKey f2 k = true then getField f2 k
            else if hasKey f1 k = true then getField f1 k
            else getField (hgetall s ("users:" ++ id)) k := by
  refine ⟨_, _, _, run_createUser s now f1 h1, run_createUser _ now f2 h2, ?_⟩
  intro k
  unfold hgetall
  rw [sadd_hashes, writeHash_hashes, if_pos rfl, sadd_hashes, writeHash_hashes, if_pos rfl,
    getField_spread, getField_spread]

/-- Witness of the amended C8: both mappings have the same single field. -/
theorem createUser_collision_overlays_witness :
    ∃ s1 s2 id, (createUser 5 [("email", JSVal.str "x")]).run Store.empty = some (s1, id)
      ∧ (createUser 5 [("email", JSVal.str "y")]).run s1 = some (s2, id)
      ∧ ∀ k, getField (hgetall s2 ("users:" ++ id)) k
          = if hasKey [("email", JSVal.str "y")] k = true then getField [("email", JSVal.str "y")] k
            else if hasKey [("email", JSVal.str "x")] k = true then getField [("email", JSVal.str "x")] k
            else getField (hgetall Store.empty ("users:" ++ id)) k :=
  createUser_collision_overlays Store.empty 5 [("email", JSVal.str "x")] [("email", JSVal.str "y")]
    (by decide) (by decide)

/-- Counterexample to C8 as stated: with `f1 = {email: "a", name: "n"}` and
`f2 = {email: "b"}` in the same millisecond, both calls succeed with the same
identifier, and the stored record still has the field `name` of `f1`, which `f2`
does not have: the record is not `f2`. And a call with the empty mapping `{}` fails:
`HSET` without a field is rejected. -/
theorem createUser_collision_not_second :
    ∃ s1 s2, (createUser 5 [("email", JSVal.str "a"), ("name", JSVal.str "n")]).run Store.empty
        = some (s1, "user:5")
      ∧ (createUser 5 [("email", JSVal.str "b")]).run s1 = some (s2, "user:5")
      ∧ getField (hgetall s2 "users:user:5") "name" = JSVal.str "n"
      ∧ getField [("email", JSVal.str "b")] "name" = JSVal.undefined
      ∧ hgetall s2 "users:user:5" ≠ [("email", JSVal.str "b")]
      ∧ (createUser 5 []).run Store.empty = none :=
  ⟨_, _, rfl, rfl, by decide, by decide, by decide, rfl⟩

/-! ## `getUserByEmail`: the linear scan -/

theorem getUserByEmailLoop_none (s : Store) (e : JSVal) (ids : List String) :
    getUserByEmailLoop s e ids = none
      ↔ ∀ id ∈ ids, getField (hgetall s ("users:" ++ id)) "email" ≠ e := by
  induction ids with
  | nil => simp [getUserByEmailLoop]
  | cons a rest ih =>
    unfold getUserByEmailLoop
    by_cases h : getField (hgetall s ("users:" ++ a)) "email" = e
    · simp [h]
    · simp [h, ih]

theorem getUserByEmailLoop_first (s : Store) (e : JSVal) (pre : List String) (id : String)
    (post : List String)
    (hpre : ∀ x ∈ pre, getField (hgetall s ("users:" ++ x)) "email" ≠ e)
    (hid : getField (hgetall s ("users:" ++ id)) "email" = e) :
    getUserByEmailLoop s e (pre ++ id :: post)
      = some (setField (hgetall s ("users:" ++ id)) "id" (JSVal.str id)) := by
  induction pre with
  | nil =>
    rw [List.nil_append]
    unfold getUserByEmailLoop
    simp [hid]
  | cons a rest ih =>
    rw [List.cons_append]
    unfold getUserByEmailLoop
    have ha := hpre a (List.mem_cons_self _ _)
    simp only [ha, if_false]
    exact ih (fun x hx => hpre x (List.mem_cons_of_mem _ hx))

/-- C4: when every member of `users:index` has a stored record, `getUserByEmail(e)`
returns the record, with `id` attached, of the first member in scan order whose
`email` field equals `e`, and it returns `null` exactly when no member has that
email. -/
theorem getUserByEmail_first_match (s : Store) (e : JSVal)
    (_hrec : ∀ id ∈ smembers s "users:index", hgetall s ("users:" ++ id) ≠ []) :
    (∀ pre id post, smembers s "users:index" = pre ++ id :: post →
        (∀ x ∈ pre, getField (hgetall s ("users:" ++ x)) "email" ≠ e) →
        getField (hgetall s ("users:" ++ id)) "email" = e →
        getUserByEmail s e = some (setField (hgetall s ("users:" ++ id)) "id" (JSVal.str id)))
    ∧ (getUserByEmail s e = none
        ↔ ∀ id ∈ smembers s "users:index", getField (hgetall s ("users:" ++ id)) "email" ≠ e) := by
  constructor
  · intro pre id post hdec hpre hid
    unfold getUserByEmail
    rw [hdec]
    exact getUserByEmailLoop_first s e pre id post hpre hid
  · exact getUserByEmailLoop_none s e _

/-- Witness of C4, the example of the specification: with members `a: {email: "x"}`
and `b: {email: "y"}` the query `"y"` returns `b` and the query `"z"` returns `null`. -/
theorem getUserByEmail_first_match_witness :
    getUserByEmail usersExample (JSVal.str "y")
        = some [("email", JSVal.str "y"), ("id", JSVal.str "b")]
      ∧ getUserByEmail usersExample (JSVal.str "z") = none :=
  ⟨(getUserByEmail_first_match usersExample (JSVal.str "y") (by decide)).1 ["a"] "b" [] rfl
      (by decide) (by decide),
    (getUserByEmail_first_match usersExample (JSVal.str "z") (by decide)).2.2 (by decide)⟩

/-! ## `listPages`: the batch fetch and the index read -/

theorem listPagesFrom_length (s : Store) (pageIds : List String) :
    (listPagesFrom s pageIds).length = pageIds.length := by
  simp [listPagesFrom]

/-- C6: for every list of identifiers the index read of `listPages` returns, the
result has one entry per identifier, in the same order; the entry at position `i`
has `id` equal to the `i`-th identifier and every other field as stored for that
identifier; an identifier with no stored record yields the entry `{id}`, it is not
left out. -/
theorem listPages_entries (s : Store) (pageIds : List String) :
    (listPagesFrom s pageIds).length = pageIds.length
      ∧ ∀ (i : Nat) (id : String), pageIds[i]? = some id →
          ∃ entry, (listPagesFrom s pageIds)[i]? = some entry
            ∧ getField entry "id" = JSVal.str id
            ∧ (∀ f, f ≠ "id" → getField entry f = getField (hgetall s ("pages:" ++ id)) f)
            ∧ (hgetall s ("pages:" ++ id) = [] → entry = [("id", JSVal.str id)]) := by
  constructor
  · exact listPagesFrom_length s pageIds
  · intro i id hi
    refine ⟨setField (hgetall s ("pages:" ++ id)) "id" (JSVal.str id), ?_, ?_, ?_, ?_⟩
    · simp [listPagesFrom, List.getElem?_mapIdx, List.getElem?_map, hi]
    · rw [getField_setField, if_pos rfl]
    · intro f hf
      rw [getField_setField, if_neg (fun e => hf e.symm)]
    · intro hnil
      rw [hnil]
      rfl

/-- The result of `listPages` is the batch fetch applied to what the index read
returned. -/
theorem listPages_of_read (s : Store) (limit : Int) (pageIds : List String)
    (h : listPagesIds s limit = some pageIds) :
    listPages s limit = some (listPagesFrom s pageIds) := by
  unfold listPages
  rw [h]

/-- C5 on the code: for every store and every limit `n`, the index read
`redis.zrevrange('pages:index', 0, n - 1)` throws, because the client has no method
`zrevrange`; `listPages(n)` throws with it and returns no page at all, neither the
`min(n, members)` highest-scored ones nor any other. -/
theorem listPages_throws (s : Store) (limit : Int) :
    listPagesIds s limit = none ∧ listPages s limit = none :=
  ⟨rfl, rfl⟩

/-- `createPage` throws at `redis.zadd` after the record is written: `pages:index`
is never changed. -/
theorem createPage_never_indexes (s : Store) (now1 : Nat) (iso1 iso2 : String) (now2 : Nat)
    (pageData : Record) :
    (createPage now1 iso1 iso2 now2 pageData).run s = none
      ∧ ((createPage now1 iso1 iso2 now2 pageData).leaves s).zsets = s.zsets
      ∧ hgetall ((createPage now1 iso1 iso2 now2 pageData).leaves s)
          ("pages:" ++ ("page:" ++ toString now1)) ≠ [] := by
  have hne : setField (setField pageData "createdAt" (JSVal.str iso1)) "updatedAt"
      (JSVal.str iso2) ≠ [] := setField_ne_nil _ _ _
  refine ⟨?_, ?_, ?_⟩
  · simp [Op.run, createPage, runCmds, Cmd.exec, hset_eq_some _ _ _ hne, zadd]
  · simp [Op.leaves, createPage, runLeaves, Cmd.exec, hset_eq_some _ _ _ hne, zadd,
      writeHash_zsets]
  · simp only [Op.leaves, createPage, runLeaves, Cmd.exec, hset_eq_some _ _ _ hne, zadd, hgetall,
      writeHash_hashes, if_true]
    exact spread_ne_nil_of_right _ _ hne

/-! ## `trackEvent`: the daily counters -/

theorem hasKey_of_getField_num (r : Record) (k : String) (n : Int)
    (h : getField r k = JSVal.num n) : hasKey r k = true := by
  cases hk : hasKey r k with
  | true => rfl
  | false =>
    rw [getField_of_not_hasKey r k hk] at h
    exact JSVal.noConfusion h

theorem hincrby_absent (s : Store) (key f : String) (h : hasKey (s.hashes key) f = false) :
    hincrby s key (some f) 1
      = some (s.writeHash key (setField (s.hashes key) f (JSVal.num 1))) := by
  unfold hincrby hashInt
  simp [h]

theorem hincrby_num (s : Store) (key f : String) (n : Int)
    (h : getField (s.hashes key) f = JSVal.num n)
    (hlo : -(2 : Int) ^ 63 ≤ n) (hhi : n + 1 < (2 : Int) ^ 63) :
    hincrby s key (some f) 1
      = some (s.writeHash key (setField (s.hashes key) f (JSVal.num (n + 1)))) := by
  unfold hincrby hashInt
  have hk := hasKey_of_getField_num _ _ _ h
  have h1 : n < (2 : Int) ^ 63 := by omega
  have h2 : -(2 : Int) ^ 63 ≤ n + 1 := by omega
  have hall : -(2 : Int) ^ 63 ≤ n ∧ n < (2 : Int) ^ 63 ∧ -(2 : Int) ^ 63 ≤ n + 1
      ∧ n + 1 < (2 : Int) ^ 63 := ⟨hlo, h1, h2, hhi⟩
  simp only [h, hk, if_true]
  rw [if_pos hall]

theorem run_trackEvent (other : JSVal → Option String) (s : Store) (now : Nat)
    (iso1 iso2 : String) (event : Record) :
    (trackEvent other now iso1 iso2 event).run s
      = (hincrby (s.writeHash ("events:" ++ ("event:" ++ toString now))
            (spread (s.hashes ("events:" ++ ("event:" ++ toString now)))
              (setField event "timestamp" (JSVal.str iso1))))
          ("stats:daily:" ++ isoDate iso2) (argText other (getField event "type")) 1).map
          (fun s' => (s', "event:" ++ toString now)) := by
  simp only [Op.run, trackEvent, runCmds, Cmd.exec, hset_eq_some _ _ _ (setField_ne_nil _ _ _)]
  cases hincrby _ _ _ _ <;> rfl

/-- The type of the event the analytics handler tracks: the type of the request body
when that is truthy, `pageview` otherwise. -/
theorem enrichedEvent_type (event : Record) (userAgent forwardedFor remoteAddress : JSVal)
    (iso : String) :
    getField (enrichedEvent event userAgent forwardedFor remoteAddress iso) "type"
      = jsOr (getField event "type") (JSVal.str "pageview") := by
  unfold enrichedEvent
  rw [getField_setField, if_pos rfl]

/-- A string type is sent as it is, whatever the client does with other values. -/
theorem argText_str (other : JSVal → Option String) (t : String) :
    argText other (JSVal.str t) = some t := rfl

/-- A small integer type is sent as its decimal text: the type `7` counts under `7`. -/
theorem argText_seven (other : JSVal → Option String) :
    argText other (JSVal.num 7) = some "7" := by
  have h : (7 : Int).natAbs < 10 ^ 21 := by decide
  show (if (7 : Int).natAbs < 10 ^ 21 then some (toString (7 : Int)) else other (JSVal.num 7))
    = some "7"
  rw [if_pos h]
  rfl

/-- C9 as the code has it: for every store in which the counter of today's bucket for
the event's type is absent or holds an integer that `HINCRBY` can raise, and every
event whose type the client sends as a field name `ty` (a string as itself, an
integer as its decimal text), `trackEvent` returns, raises that one counter by
exactly `1`, leaves every other field of every daily bucket as it was, and so lowers
no counter. -/
theorem trackEvent_increments_one (other : JSVal → Option String) (s : Store) (now : Nat)
    (iso1 iso2 : String) (event : Record) (ty : String)
    (hty : argText other (getField event "type") = some ty)
    (hok : hasKey (hgetall s ("stats:daily:" ++ isoDate iso2)) ty = false
      ∨ ∃ n, getField (hgetall s ("stats:daily:" ++ isoDate iso2)) ty = JSVal.num n
          ∧ -(2 : Int) ^ 63 ≤ n ∧ n + 1 < (2 : Int) ^ 63) :
    ∃ s', (trackEvent other now iso1 iso2 event).run s = some (s', "event:" ++ toString now)
      ∧ dailyCount s' (isoDate iso2) ty = dailyCount s (isoDate iso2) ty + 1
      ∧ (∀ day cat, (day, cat) ≠ (isoDate iso2, ty) →
          getField (hgetall s' ("stats:daily:" ++ day)) cat
            = getField (hgetall s ("stats:daily:" ++ day)) cat)
      ∧ (∀ day cat, dailyCount s day cat ≤ dailyCount s' day cat) := by
  -- the store after the event record is written
  obtain ⟨s1, hs1⟩ : ∃ s1, s1 = s.writeHash ("events:" ++ ("event:" ++ toString now))
      (spread (s.hashes ("events:" ++ ("event:" ++ toString now)))
        (setField event "timestamp" (JSVal.str iso1))) := ⟨_, rfl⟩
  have hframe : ∀ day, s1.hashes ("stats:daily:" ++ day) = s.hashes ("stats:daily:" ++ day) := by
    intro day
    rw [hs1, writeHash_hashes, if_neg (fun e => events_key_ne_stats_key _ _ e.symm)]
  -- the new value of the counter
  obtain ⟨v, hv, hcount⟩ : ∃ v : Int,
      hincrby s1 ("stats:daily:" ++ isoDate iso2) (some ty) 1
        = some (s1.writeHash ("stats:daily:" ++ isoDate iso2)
            (setField (s1.hashes ("stats:daily:" ++ isoDate iso2)) ty (JSVal.num v)))
      ∧ v = dailyCount s (isoDate iso2) ty + 1 := by
    rcases hok with habs | ⟨n, hn, hlo, hhi⟩
    · refine ⟨1, hincrby_absent s1 _ _ (by rw [hframe]; exact habs), ?_⟩
      unfold dailyCount getDailyStats
      rw [getField_of_not_hasKey _ _ habs]
      rfl
    · refine ⟨n + 1, hincrby_num s1 _ _ n (by rw [hframe]; exact hn) hlo hhi, ?_⟩
      unfold dailyCount getDailyStats
      rw [hn]
  have hother : ∀ day cat, (day, cat) ≠ (isoDate iso2, ty) →
      getField ((s1.writeHash ("stats:daily:" ++ isoDate iso2)
          (setField (s1.hashes ("stats:daily:" ++ isoDate iso2)) ty (JSVal.num v))).hashes
            ("stats:daily:" ++ day)) cat
        = getField (s.hashes ("stats:daily:" ++ day)) cat := by
    intro day cat hne
    rw [writeHash_hashes]
    by_cases hday : day = isoDate iso2
    · subst hday
      have hcat : ¬ ty = cat := fun e => hne (by rw [e])
      rw [if_pos rfl, getField_setField, if_neg hcat, hframe]
    · rw [if_neg (fun e => hday (str_append_left_cancel _ _ _ e)), hframe]
  have hself : dailyCount (s1.writeHash ("stats:daily:" ++ isoDate iso2)
      (setField (s1.hashes ("stats:daily:" ++ isoDate iso2)) ty (JSVal.num v))) (isoDate iso2) ty
        = v := by
    unfold dailyCount getDailyStats hgetall
    rw [writeHash_hashes, if_pos rfl, getField_setField, if_pos rfl]
  refine ⟨_, ?_, ?_, hother, ?_⟩
  · rw [run_trackEvent, ← hs1, hty, hv]
    rfl
  · rw [hself, hcount]
  · intro day cat
    by_cases hne : (day, cat) = (isoDate iso2, ty)
    · obtain ⟨hd, hc⟩ := Prod.mk.inj hne
      subst hd
      subst hc
      rw [hself, hcount]
      omega
    · have := hother day cat hne
      unfold dailyCount getDailyStats hgetall
      rw [this]

/-- Witness of the amended C9: the analytics handler tracks a request without a type,
in the empty store; the event counts as a `pageview`. -/
theorem trackEvent_increments_one_witness :
    ∃ s', (trackEvent (fun _ => none) 5 "2024-01-02T10:00:00.001Z" "2024-01-02T10:00:00.002Z"
          (enrichedEvent [("path", JSVal.str "/")] (JSVal.str "curl") JSVal.undefined
            (JSVal.str "127.0.0.1") "2024-01-02T10:00:00.000Z")).run Store.empty
        = some (s', "event:" ++ toString 5)
      ∧ dailyCount s' (isoDate "2024-01-02T10:00:00.002Z") "pageview"
          = dailyCount Store.empty (isoDate "2024-01-02T10:00:00.002Z") "pageview" + 1
      ∧ (∀ day cat, (day, cat) ≠ (isoDate "2024-01-02T10:00:00.002Z", "pageview") →
          getField (hgetall s' ("stats:daily:" ++ day)) cat
            = getField (hgetall Store.empty ("stats:daily:" ++ day)) cat)
      ∧ (∀ day cat, dailyCount Store.empty day cat ≤ dailyCount s' day cat) :=
  trackEvent_increments_one (fun _ => none) Store.empty 5 "2024-01-02T10:00:00.001Z"
    "2024-01-02T10:00:00.002Z"
    (enrichedEvent [("path", JSVal.str "/")] (JSVal.str "curl") JSVal.undefined
      (JSVal.str "127.0.0.1") "2024-01-02T10:00:00.000Z")
    "pageview" (by decide) (Or.inl (by decide))

/-- An event whose type is the number `7` is counted under the field `7`: from the
empty store the call returns and the counter `7` of the day's bucket is `1`. -/
theorem trackEvent_numeric_type :
    ∃ s', (trackEvent (fun _ => none) 5 "2024-01-02T10:00:00.001Z" "2024-01-02T10:00:00.002Z"
          [("type", JSVal.num 7)]).run Store.empty = some (s', "event:5")
      ∧ getDailyStats s' "2024-01-02" = [("7", JSVal.num 1)]
      ∧ dailyCount s' "2024-01-02" "7" = 1 :=
  ⟨_, rfl, by decide, by decide⟩

/-- Counterexample to C9 as stated: in a store where the field `pageview` of the
bucket `stats:daily:2024-01-02` holds the text `abc`, `trackEvent({type: 'pageview'})`
on that day writes the event record and then throws at `HINCRBY`, which rejects a
field that is not an integer; the field still holds `abc` and the counter has not
increased. -/
theorem trackEvent_broken_counter_throws :
    (trackEvent (fun _ => none) 5 "2024-01-02T10:00:00.001Z" "2024-01-02T10:00:00.002Z"
        [("type", JSVal.str "pageview")]).run brokenCounterStore = none
      ∧ hgetall ((trackEvent (fun _ => none) 5 "2024-01-02T10:00:00.001Z"
          "2024-01-02T10:00:00.002Z" [("type", JSVal.str "pageview")]).leaves brokenCounterStore)
          "events:event:5"
        = [("type", JSVal.str "pageview"), ("timestamp", JSVal.str "2024-01-02T10:00:00.001Z")]
      ∧ getDailyStats ((trackEvent (fun _ => none) 5 "2024-01-02T10:00:00.001Z"
          "2024-01-02T10:00:00.002Z" [("type", JSVal.str "pageview")]).leaves brokenCounterStore)
          "2024-01-02"
        = [("pageview", JSVal.str "abc")]
      ∧ dailyCount ((trackEvent (fun _ => none) 5 "2024-01-02T10:00:00.001Z"
          "2024-01-02T10:00:00.002Z" [("type", JSVal.str "pageview")]).leaves brokenCounterStore)
          "2024-01-02" "pageview"
        = dailyCount brokenCounterStore "2024-01-02" "pageview" :=
  ⟨rfl, by decide, by decide, by decide⟩

/-! ## Indexes never reference a missing record -/

theorem writeHash_keeps_records (s : Store) (key : String) (r : Record) (hr : r ≠ [])
    (k : String) (h : s.hashes k ≠ []) : (s.writeHash key r).hashes k ≠ [] := by
  rw [writeHash_hashes]
  by_cases e : k = key
  · rw [if_pos e]; exact hr
  · rw [if_neg e]; exact h

theorem indexed_writeHash (s : Store) (key : String) (r : Record) (hr : r ≠ [])
    (h : IndexedHaveRecords s) : IndexedHaveRecords (s.writeHash key r) :=
  ⟨fun id hid => writeHash_keeps_records s key r hr _ (h.1 id hid),
   fun e he => writeHash_keeps_records s key r hr _ (h.2.1 e he),
   fun e he => writeHash_keeps_records s key r hr _ (h.2.2 e he)⟩

theorem indexed_hset {s s' : Store} {key : String} {fields : Record}
    (h : IndexedHaveRecords s) (hs : hset s key fields = some s') :
    IndexedHaveRecords s' ∧ hgetall s' key ≠ [] := by
  have hne := hset_some_ne_nil hs
  rw [hset_some_eq hs]
  refine ⟨indexed_writeHash s key _ (spread_ne_nil_of_right _ _ hne) h, ?_⟩
  unfold hgetall
  rw [writeHash_hashes, if_pos rfl]
  exact spread_ne_nil_of_right _ _ hne

theorem hincrby_some {s s' : Store} {key : String} {field : Option String} {incr : Int}
    (hs : hincrby s key field incr = some s') :
    ∃ f v, s' = s.writeHash key (setField (s.hashes key) f (JSVal.num v)) := by
  cases field with
  | some f =>
    simp only [hincrby] at hs
    cases hold : hashInt (s.hashes key) f with
    | none => rw [hold] at hs; exact Option.noConfusion hs
    | some n =>
      rw [hold] at hs
      simp only [] at hs
      split at hs
      · exact ⟨f, n + incr, (Option.some.inj hs).symm⟩
      · exact Option.noConfusion hs
  | none => exact Option.noConfusion hs

theorem indexed_hincrby {s s' : Store} {key : String} {field : Option String} {incr : Int}
    (h : IndexedHaveRecords s) (hs : hincrby s key field incr = some s') :
    IndexedHaveRecords s' := by
  obtain ⟨f, v, rfl⟩ := hincrby_some hs
  exact indexed_writeHash s key _ (setField_ne_nil _ _ _) h

theorem indexed_sadd_users (s : Store) (id : String) (h : IndexedHaveRecords s)
    (hrec : hgetall s ("users:" ++ id) ≠ []) : IndexedHaveRecords (sadd s "users:index" id) := by
  by_cases hm : id ∈ s.sets "users:index"
  · rw [sadd_of_mem s _ _ hm]; exact h
  · rw [sadd_of_not_mem s _ _ hm]
    refine ⟨?_, h.2.1, h.2.2⟩
    intro x hx
    rw [writeSet_sets, if_pos rfl, List.mem_append, List.mem_singleton] at hx
    rcases hx with hx | hx
    · exact h.1 x hx
    · rw [hx]; exact hrec

theorem zadd_exec_none (key : String) (arg : JSVal) (rest : List JSVal) (s : Store) :
    (Cmd.zadd key arg rest).exec s = none := rfl

theorem runCmds_nil (s : Store) : runCmds [] s = some s := rfl

theorem runCmds_cons (c : Cmd) (cs : List Cmd) (s : Store) :
    runCmds (c :: cs) s = (c.exec s).bind (runCmds cs) := by
  cases h : c.exec s <;> simp [runCmds, h]

theorem runCmds_cons_some {c : Cmd} {cs : List Cmd} {s s' : Store}
    (h : runCmds (c :: cs) s = some s') : ∃ s1, c.exec s = some s1 ∧ runCmds cs s1 = some s' := by
  rw [runCmds_cons] at h
  exact Option.bind_eq_some.mp h

theorem runCmds_nil_some {s s' : Store} (h : runCmds [] s = some s') : s' = s :=
  (Option.some.inj h).symm

/-- C7: from a store in which every identifier in `users:index`, `pages:index` and
`uptime:index` has a stored record, every run of `createUser`, `createPage`,
`recordUptimeCheck` or `trackEvent`, complete or stopped after any number `k` of its
store calls, leaves a store with the same property. -/
theorem writes_keep_indexed_records (s : Store) (call : DbCall) (k : Nat) (s' : Store)
    (h : IndexedHaveRecords s) (hrun : call.op.runPrefix k s = some s') :
    IndexedHaveRecords s' := by
  cases call with
  | createUser now userData =>
    simp only [DbCall.op, Op.runPrefix, createUser] at hrun
    rcases k with _ | _ | k
    · rw [runCmds_nil_some hrun]; exact h
    · obtain ⟨s1, h1, hrest⟩ := runCmds_cons_some hrun
      rw [runCmds_nil_some hrest]
      exact (indexed_hset h h1).1
    · obtain ⟨s1, h1, hrest⟩ := runCmds_cons_some hrun
      obtain ⟨s2, h2, hrest2⟩ := runCmds_cons_some hrest
      rw [List.take_nil] at hrest2
      rw [runCmds_nil_some hrest2, ← Option.some.inj h2]
      exact indexed_sadd_users s1 _ (indexed_hset h h1).1 (indexed_hset h h1).2
  | createPage now1 iso1 iso2 now2 pageData =>
    simp only [DbCall.op, Op.runPrefix, createPage] at hrun
    rcases k with _ | _ | k
    · rw [runCmds_nil_some hrun]; exact h
    · obtain ⟨s1, h1, hrest⟩ := runCmds_cons_some hrun
      rw [runCmds_nil_some hrest]
      exact (indexed_hset h h1).1
    · obtain ⟨s1, h1, hrest⟩ := runCmds_cons_some hrun
      obtain ⟨s2, h2, hrest2⟩ := runCmds_cons_some hrest
      rw [zadd_exec_none] at h2
      exact Option.noConfusion h2
  | recordUptimeCheck now1 now2 checkData =>
    simp only [DbCall.op, Op.runPrefix, recordUptimeCheck] at hrun
    rcases k with _ | _ | k
    · rw [runCmds_nil_some hrun]; exact h
    · obtain ⟨s1, h1, hrest⟩ := runCmds_cons_some hrun
      rw [runCmds_nil_some hrest]
      exact (indexed_hset h h1).1
    · obtain ⟨s1, h1, hrest⟩ := runCmds_cons_some hrun
      obtain ⟨s2, h2, hrest2⟩ := runCmds_cons_some hrest
      rw [zadd_exec_none] at h2
      exact Option.noConfusion h2
  | trackEvent other now iso1 iso2 event =>
    simp only [DbCall.op, Op.runPrefix, trackEvent] at hrun
    rcases k with _ | _ | k
    · rw [runCmds_nil_some hrun]; exact h
    · obtain ⟨s1, h1, hrest⟩ := runCmds_cons_some hrun
      rw [runCmds_nil_some hrest]
      exact (indexed_hset h h1).1
    · obtain ⟨s1, h1, hrest⟩ := runCmds_cons_some hrun
      obtain ⟨s2, h2, hrest2⟩ := runCmds_cons_some hrest
      rw [List.take_nil] at hrest2
      rw [runCmds_nil_some hrest2]
      exact indexed_hincrby (indexed_hset h h1).1 h2

/-- Witness of C7: a complete run of `createUser` (record write, then index write)
from a store whose user index already references two records. -/
theorem writes_keep_indexed_records_witness :
    IndexedHaveRecords
      (sadd (usersExample.writeHash "users:user:5" [("email", JSVal.str "z")])
        "users:index" "user:5") :=
  writes_keep_indexed_records usersExample
    (DbCall.createUser 5 [("email", JSVal.str "z")]) 2 _
    (by unfold IndexedHaveRecords; decide) rfl

/-! ## `recordUptimeCheck`: the index write -/

theorem recordUptimeCheck_run_none (s : Store) (now1 now2 : Nat) (checkData : Record) :
    (recordUptimeCheck now1 now2 checkData).run s = none := by
  unfold Op.run recordUptimeCheck
  simp only [runCmds_cons, zadd_exec_none]
  cases (Cmd.hset ("uptime:" ++ ("check:" ++ toString now1)) checkData).exec s <;> rfl

theorem recordUptimeCheck_leaves_zsets (s : Store) (now1 now2 : Nat) (checkData : Record) :
    ((recordUptimeCheck now1 now2 checkData).leaves s).zsets = s.zsets := by
  by_cases hd : checkData = []
  · subst hd
    rfl
  · simp [Op.leaves, recordUptimeCheck, runLeaves, Cmd.exec, hset_eq_some _ _ _ hd, zadd,
      writeHash_zsets]

theorem recordUptimeChecks_zsets (calls : List (Nat × Nat × Record)) :
    ∀ s : Store, (recordUptimeChecks calls s).zsets = s.zsets := by
  induction calls with
  | nil => intro s; rfl
  | cons c rest ih =>
    intro s
    unfold recordUptimeChecks
    rw [ih, recordUptimeCheck_leaves_zsets]

/-- C1 on the code: every `recordUptimeCheck` call throws at `redis.zadd`, after the
record is written and before the index is touched, so after any sequence of calls
`uptime:index` is what it was before the first one. Starting from an empty index it
stays empty: it never holds the `1000` highest-scored identifiers. -/
theorem recordUptimeChecks_never_index (s : Store) (calls : List (Nat × Nat × Record)) :
    (∀ c ∈ calls, ∀ s0 : Store, (recordUptimeCheck c.1 c.2.1 c.2.2).run s0 = none)
      ∧ (recordUptimeChecks calls s).zsets "uptime:index" = s.zsets "uptime:index"
      ∧ (s.zsets "uptime:index" = [] →
          ((recordUptimeChecks calls s).zsets "uptime:index").length = 0) := by
  refine ⟨fun c _ s0 => recordUptimeCheck_run_none s0 c.1 c.2.1 c.2.2, ?_, ?_⟩
  · rw [recordUptimeChecks_zsets]
  · intro h
    rw [recordUptimeChecks_zsets, h]
    rfl

/-- C1 on the code, at an input: a thousand checks recorded into the empty store leave
`uptime:index` empty, and the first of them throws after writing its record. -/
theorem recordUptimeChecks_never_index_witness :
    ((recordUptimeChecks thousandChecks Store.empty).zsets "uptime:index").length = 0
      ∧ (recordUptimeCheck 0 0 [("status", JSVal.str "up")]).run Store.empty = none
      ∧ hgetall ((recordUptimeCheck 0 0 [("status", JSVal.str "up")]).leaves Store.empty)
          "uptime:check:0" = [("status", JSVal.str "up")] :=
  ⟨(recordUptimeChecks_never_index Store.empty thousandChecks).2.2 rfl,
   (recordUptimeChecks_never_index Store.empty [(0, 0, [("status", JSVal.str "up")])]).1
      (0, 0, [("status", JSVal.str "up")]) (List.mem_singleton_self _) Store.empty,
   by decide⟩

/-! ## `getUptimeStats`: the window read and the statistics -/

/-- C2 on the code: for every store, clock value and window, the index read
`redis.zrangebyscore('uptime:index', cutoff, '+inf')` throws, because the client has
no method `zrangebyscore`; `getUptimeStats` throws with it and returns no counts and
no average, on an empty window as on any other. -/
theorem getUptimeStats_throws (parseStr : String → JSNum) (s : Store) (now : Nat)
    (hours : Int) :
    uptimeCheckIds s now hours = none ∧ getUptimeStats parseStr s now hours = none :=
  ⟨rfl, rfl⟩

/-- The result of `getUptimeStats` is the statistics of what the index read returned. -/
theorem getUptimeStats_of_read (parseStr : String → JSNum) (s : Store) (now : Nat)
    (hours : Int) (checkIds : List String) (h : uptimeCheckIds s now hours = some checkIds) :
    getUptimeStats parseStr s now hours = some (uptimeStatsFrom parseStr s checkIds) := by
  unfold getUptimeStats
  rw [h]

/-- The statements after the index read, on an empty list of identifiers: the counts
are `0` and the average is `0 / 0`, which is `NaN`. -/
theorem uptimeStatsFrom_nil (parseStr : String → JSNum) (s : Store) :
    (uptimeStatsFrom parseStr s []).totalChecks = 0
      ∧ (uptimeStatsFrom parseStr s []).successful = 0
      ∧ (uptimeStatsFrom parseStr s []).failed = 0
      ∧ (uptimeStatsFrom parseStr s []).avgResponseTime = JSNum.nan := by
  refine ⟨rfl, rfl, rfl, ?_⟩
  simp [uptimeStatsFrom, JSNum.div]

/-- C3 as the code has it: for every store and every list of identifiers the index
read hands to `getUptimeStats`, the function keeps the order of the list and returns,
as `checks`, the records of its last `100` identifiers; it counts every identifier
of the list. The list is taken oldest first: when it is in ascending score order,
every identifier left out of `checks` has a score at most that of every identifier
kept. -/
theorem uptimeStatsFrom_keeps_order (parseStr : String → JSNum) (s : Store)
    (checkIds : List String) :
    (uptimeStatsFrom parseStr s checkIds).totalChecks = checkIds.length
      ∧ (uptimeStatsFrom parseStr s checkIds).checks
          = (checkIds.drop (checkIds.length - 100)).map (fun id => hgetall s ("uptime:" ++ id))
      ∧ (uptimeStatsFrom parseStr s checkIds).checks.length = min checkIds.length 100
      ∧ ∀ score : String → Int, checkIds.Pairwise (fun a b => score a ≤ score b) →
          ∀ a ∈ checkIds.take (checkIds.length - 100),
            ∀ b ∈ checkIds.drop (checkIds.length - 100), score a ≤ score b := by
  refine ⟨?_, ?_, ?_, ?_⟩
  · simp [uptimeStatsFrom]
  · simp [uptimeStatsFrom, List.map_drop]
  · simp only [uptimeStatsFrom, List.length_drop, List.length_map]
    omega
  · intro score hpw a ha b hb
    have hsplit : (checkIds.take (checkIds.length - 100)
        ++ checkIds.drop (checkIds.length - 100)).Pairwise (fun a b => score a ≤ score b) := by
      rw [List.take_append_drop]; exact hpw
    exact (List.pairwise_append.mp hsplit).2.2 a ha b hb

/-- Counterexample to C3 as stated: on the empty store, read 25 hours after midnight
with a window of 24 hours, `getUptimeStats` retrieves no identifier list at all: the
index read throws. -/
theorem uptimeCheckIds_retrieves_nothing :
    uptimeCheckIds Store.empty 90000000 24 = none
      ∧ getUptimeStats (fun _ => JSNum.nan) Store.empty 90000000 24 = none :=
  ⟨rfl, rfl⟩

end DevHub

